import Mathlib

/-
  Verification development for the pluggable I/O-readiness multiplexing
  layer (event contexts, poll-record store, poll backend, epoll backend).

  The definitions below are shallow embeddings of the C sources:
    * gevent.c / the unnamed gevent revision: GEventContext refcounting,
      add_poll/remove_poll delegation, lazily initialised default context.
    * gmain-poll.c / the unnamed gmain-poll revision: the intrusive
      priority-ordered poll-record list and its add/modify/remove/query
      operations; poll-failure handling.
    * gmain-epoll.c (three revisions concatenated): event-mask
      translation, EPERM compatibility fallback, compat-set
      modify/remove, epoll_wait failure handling, and the byte-level
      memmove used by the array-based compat-set removal.

  Machine integers are modelled as Int (gint, signed) and Nat (bitmasks,
  counters); kernel calls (epoll_ctl, epoll_wait, poll) are external
  inputs and are passed to each embedded function as an explicit outcome
  argument.
-/

namespace Glib

/-! ### Errno and event-mask constants (Linux values) -/

def EPERM : Nat := 1
def ENOENT : Nat := 2
def EINTR : Nat := 4
def EBADF : Nat := 9

def G_IO_IN : Nat := 1
def G_IO_PRI : Nat := 2
def G_IO_OUT : Nat := 4
def G_IO_ERR : Nat := 8
def G_IO_HUP : Nat := 16

def EPOLLIN : Nat := 1
def EPOLLPRI : Nat := 2
def EPOLLOUT : Nat := 4
def EPOLLERR : Nat := 8
def EPOLLHUP : Nat := 16

/-! ### EventContext refcounting (gevent.c)

The context private block carries the atomic `ref_count` (gint, starts
at 1).  `finalized` counts how many times the vtable finalize hook has
run; the C code frees the memory right after calling it, so a state
with `finalized > 0` corresponds to a destroyed context. -/

structure GEventContext where
  ref_count : Int
  finalized : Nat
deriving Repr, DecidableEq

/-- Embeds `g_event_context_new` of gevent.c (and `g_event_context_new_custom`
of the unnamed gevent revision, whose body is identical): the private
block is allocated with `ref_count = 1` and the finalize hook has not run. -/
def g_event_context_new_custom : GEventContext :=
  { ref_count := 1, finalized := 0 }

/-- Embeds `g_event_context_new`: in both revisions the construction paths
end in the same private-block initialisation with `ref_count = 1`. -/
def g_event_context_new : GEventContext :=
  g_event_context_new_custom

/-- Embeds `g_event_context_ref`: `g_return_val_if_fail` bails out unless the
observed refcount is positive; otherwise `g_atomic_int_inc`. -/
def g_event_context_ref (c : GEventContext) : GEventContext :=
  if c.ref_count > 0 then { c with ref_count := c.ref_count + 1 } else c

/-- Embeds `g_event_context_unref`: `g_return_if_fail` bails out unless the
refcount is positive; `g_atomic_int_dec_and_test` decrements and, exactly
when the count reaches zero, `funcs->finalize` runs and the memory is freed. -/
def g_event_context_unref (c : GEventContext) : GEventContext :=
  if c.ref_count > 0 then
    if c.ref_count - 1 = 0 then
      { ref_count := 0, finalized := c.finalized + 1 }
    else
      { c with ref_count := c.ref_count - 1 }
  else c

lemma ref_iterate (n : Nat) :
    (g_event_context_ref)^[n] g_event_context_new_custom
      = { ref_count := 1 + n, finalized := 0 } := by
  induction n with
  | zero => simp [g_event_context_new_custom]
  | succ k ih =>
      rw [Function.iterate_succ_apply', ih]
      have hpos : (1 : Int) + k > 0 := by positivity
      simp only [g_event_context_ref, hpos, if_pos]
      simp only [GEventContext.mk.injEq, and_true]
      push_cast
      ring

lemma unref_iterate (n k : Nat) (hk : k ≤ n) :
    (g_event_context_unref)^[k]
        ((g_event_context_ref)^[n] g_event_context_new_custom)
      = { ref_count := 1 + n - k, finalized := 0 } := by
  induction k with
  | zero => simp [ref_iterate]
  | succ j ih =>
      have hj : j ≤ n := Nat.le_of_succ_le hk
      rw [Function.iterate_succ_apply', ih hj]
      have hpos : (1 : Int) + n - j > 0 := by
        have : (j : Int) < 1 + n := by
          have := Int.ofNat_le.mpr hj
          omega
        omega
      have hne : (1 : Int) + n - j - 1 ≠ 0 := by
        have : (j : Int) + 1 ≤ n := by
          have := Int.ofNat_le.mpr hk
          push_cast at this
          omega
        omega
      simp only [g_event_context_unref]
      rw [if_pos hpos, if_neg hne]
      simp only [GEventContext.mk.injEq, and_true]
      push_cast
      ring

/-! ### The poll-record store (gmain-poll.c / the unnamed gmain-poll revision)

A `GPollRec` carries the descriptor, the priority (gint, lower value is
served first) and the interest mask (gushort).  The intrusive doubly
linked list is modelled as a `List GPollRec` in head-to-tail order. -/

structure GPollRec where
  fd : Int
  priority : Int
  events : Nat
deriving Repr, DecidableEq

structure GPollFD where
  fd : Int
  events : Nat
  revents : Nat
deriving Repr, DecidableEq

/-- The tail-to-head scan of `g_baseline_poller_add_fd` /
`g_poll_context_add_fd`, expressed on the reversed record list
(`prevrec` starts at the tail; the loop walks `prev` links while
`priority < prevrec->priority` and the new record is linked right after
the record the scan stopped on). -/
def pollRecInsertRev (rev : List GPollRec) (newrec : GPollRec) : List GPollRec :=
  match rev with
  | [] => [newrec]
  | prevrec :: rest =>
      if newrec.priority < prevrec.priority then
        prevrec :: pollRecInsertRev rest newrec
      else
        newrec :: prevrec :: rest

/-- The record-list effect of `g_baseline_poller_add_fd` (gmain-poll.c,
identical scan in `g_poll_context_add_fd` of the unnamed revision): the
new record is inserted where the tail-to-head scan stops. -/
def g_poll_records_insert (recs : List GPollRec) (newrec : GPollRec) :
    List GPollRec :=
  (pollRecInsertRev recs.reverse newrec).reverse

/-- The store invariant: records are sorted by ascending priority value
from head to tail. -/
def pollRecsSorted (recs : List GPollRec) : Prop :=
  recs.Pairwise (fun a b => a.priority ≤ b.priority)

lemma takeWhile_append_all {α : Type} (q : α → Bool) {l₁ : List α}
    (l₂ : List α) (h : ∀ x ∈ l₁, q x = true) :
    (l₁ ++ l₂).takeWhile q = l₁ ++ l₂.takeWhile q := by
  induction l₁ with
  | nil => simp
  | cons a t ih =>
      have ha : q a = true := h a (List.mem_cons_self a t)
      simp only [List.cons_append, List.takeWhile_cons, ha, if_true]
      rw [ih fun x hx => h x (List.mem_cons_of_mem a hx)]

lemma dropWhile_append_all {α : Type} (q : α → Bool) {l₁ : List α}
    (l₂ : List α) (h : ∀ x ∈ l₁, q x = true) :
    (l₁ ++ l₂).dropWhile q = l₂.dropWhile q := by
  induction l₁ with
  | nil => simp
  | cons a t ih =>
      have ha : q a = true := h a (List.mem_cons_self a t)
      simp only [List.cons_append, List.dropWhile_cons, ha, if_true]
      exact ih fun x hx => h x (List.mem_cons_of_mem a hx)

lemma takeWhile_eq_nil_of_all {α : Type} (q : α → Bool) {l : List α}
    (h : ∀ x ∈ l, q x = false) : l.takeWhile q = [] := by
  cases l with
  | nil => rfl
  | cons a t =>
      simp only [List.takeWhile_cons, h a (List.mem_cons_self a t)]
      rfl

lemma dropWhile_eq_self_of_all {α : Type} (q : α → Bool) {l : List α}
    (h : ∀ x ∈ l, q x = false) : l.dropWhile q = l := by
  cases l with
  | nil => rfl
  | cons a t =>
      simp only [List.dropWhile_cons, h a (List.mem_cons_self a t)]
      rfl

/-- `pollRecInsertRev` splits the reversed list at the longest prefix of
records with priority strictly above the new record's priority. -/
lemma pollRecInsertRev_eq (rev : List GPollRec) (r : GPollRec) :
    pollRecInsertRev rev r
      = rev.takeWhile (fun x => r.priority < x.priority)
        ++ r :: rev.dropWhile (fun x => r.priority < x.priority) := by
  induction rev with
  | nil => rfl
  | cons a t ih =>
      by_cases h : r.priority < a.priority
      · simp only [pollRecInsertRev, h, if_true, List.takeWhile_cons,
          List.dropWhile_cons, decide_eq_true h]
        rw [ih]
        rfl
      · simp only [pollRecInsertRev, h, if_false, List.takeWhile_cons,
          List.dropWhile_cons, decide_eq_false h]
        rfl

/-- In a sorted store everything past the `priority ≤ p` prefix has
priority strictly above `p`. -/
lemma all_dropWhile_gt (p : Int) :
    ∀ l : List GPollRec, pollRecsSorted l →
      ∀ x ∈ l.dropWhile (fun y => y.priority ≤ p), p < x.priority := by
  intro l
  induction l with
  | nil => intro _ x hx; simp at hx
  | cons a t ih =>
      intro hs x hx
      rw [pollRecsSorted, List.pairwise_cons] at hs
      by_cases ha : a.priority ≤ p
      · rw [List.dropWhile_cons, if_pos (by simpa using ha)] at hx
        exact ih hs.2 x hx
      · rw [List.dropWhile_cons, if_neg (by simpa using ha)] at hx
        rcases List.mem_cons.mp hx with h | h
        · subst h; omega
        · have := hs.1 x h
          omega

/-- Stable sorted insertion: on a sorted store the add scan places the new
record exactly after the last existing record whose priority is `≤` the
new record's priority. -/
lemma g_poll_records_insert_eq (recs : List GPollRec) (r : GPollRec)
    (hs : pollRecsSorted recs) :
    g_poll_records_insert recs r
      = recs.takeWhile (fun x => x.priority ≤ r.priority)
        ++ r :: recs.dropWhile (fun x => x.priority ≤ r.priority) := by
  set p := r.priority with hp
  set A := recs.takeWhile (fun x => x.priority ≤ p) with hA
  set B := recs.dropWhile (fun x => x.priority ≤ p) with hB
  have hAB : A ++ B = recs := List.takeWhile_append_dropWhile _ _
  have hAmem : ∀ x ∈ A, x.priority ≤ p := by
    intro x hx
    have := List.mem_takeWhile_imp hx
    simpa using this
  have hBmem : ∀ x ∈ B, p < x.priority := by
    intro x hx
    exact all_dropWhile_gt p recs hs x hx
  have hrev : recs.reverse = B.reverse ++ A.reverse := by
    rw [← hAB, List.reverse_append]
  rw [g_poll_records_insert, pollRecInsertRev_eq, hrev]
  have htake :
      (B.reverse ++ A.reverse).takeWhile (fun x => p < x.priority)
        = B.reverse := by
    rw [takeWhile_append_all _ _
      (fun x hx => decide_eq_true (hBmem x (List.mem_reverse.mp hx)))]
    rw [takeWhile_eq_nil_of_all _
      (fun x hx => decide_eq_false
        (by have := hAmem x (List.mem_reverse.mp hx); omega))]
    simp
  have hdrop :
      (B.reverse ++ A.reverse).dropWhile (fun x => p < x.priority)
        = A.reverse := by
    rw [dropWhile_append_all _ _
      (fun x hx => decide_eq_true (hBmem x (List.mem_reverse.mp hx)))]
    exact dropWhile_eq_self_of_all _
      (fun x hx => decide_eq_false
        (by have := hAmem x (List.mem_reverse.mp hx); omega))
  rw [htake, hdrop]
  rw [List.reverse_append, List.reverse_cons, List.reverse_reverse,
    List.reverse_reverse, List.append_assoc]
  simp

/-- Sorted stores stay sorted under the add scan. -/
lemma g_poll_records_insert_sorted (recs : List GPollRec) (r : GPollRec)
    (hs : pollRecsSorted recs) :
    pollRecsSorted (g_poll_records_insert recs r) := by
  rw [g_poll_records_insert_eq recs r hs]
  set p := r.priority with hp
  set A := recs.takeWhile (fun x => x.priority ≤ p) with hA
  set B := recs.dropWhile (fun x => x.priority ≤ p) with hB
  have hAB : A ++ B = recs := List.takeWhile_append_dropWhile _ _
  have hAmem : ∀ x ∈ A, x.priority ≤ p := by
    intro x hx
    have := List.mem_takeWhile_imp hx
    simpa using this
  have hBmem : ∀ x ∈ B, p < x.priority := fun x hx =>
    all_dropWhile_gt p recs hs x hx
  have hs' : (A ++ B).Pairwise (fun a b => a.priority ≤ b.priority) := by
    rw [hAB]; exact hs
  rw [List.pairwise_append] at hs'
  rw [pollRecsSorted, List.pairwise_append]
  refine ⟨hs'.1, ?_, ?_⟩
  · rw [List.pairwise_cons]
    exact ⟨fun b hb => le_of_lt (hBmem b hb), hs'.2.1⟩
  · intro a ha b hb
    rcases List.mem_cons.mp hb with h | h
    · subst h; exact hAmem a ha
    · exact hs'.2.2 a ha b h

lemma foldl_insert_sorted (ops : List GPollRec) :
    ∀ s : List GPollRec, pollRecsSorted s →
      pollRecsSorted (ops.foldl g_poll_records_insert s) := by
  induction ops with
  | nil => intro s hs; simpa using hs
  | cons r t ih =>
      intro s hs
      exact ih _ (g_poll_records_insert_sorted s r hs)

/-- Claim C2: the portable backend's add scan keeps the record list sorted
by ascending priority (so every sequence of adds starting from the empty
store yields a sorted store), and the insertion is stable: the new record
lands exactly after the last existing record of priority `≤` its own, so
equal-priority records keep arrival order. -/
theorem g_poll_records_insert_sorted_stable :
    (∀ (recs : List GPollRec) (r : GPollRec), pollRecsSorted recs →
        g_poll_records_insert recs r
          = recs.takeWhile (fun x => x.priority ≤ r.priority)
            ++ r :: recs.dropWhile (fun x => x.priority ≤ r.priority) ∧
        pollRecsSorted (g_poll_records_insert recs r)) ∧
    (∀ ops : List GPollRec,
        pollRecsSorted (ops.foldl g_poll_records_insert [])) := by
  constructor
  · intro recs r hs
    exact ⟨g_poll_records_insert_eq recs r hs,
      g_poll_records_insert_sorted recs r hs⟩
  · intro ops
    exact foldl_insert_sorted ops [] (by simp [pollRecsSorted])

/-- Witness for C2: inserting a priority-1 record into the sorted store
[(fd 1, prio 1), (fd 2, prio 3)] lands it after the existing priority-1
record and before the priority-3 record, and the result is sorted. -/
theorem g_poll_records_insert_sorted_stable_witness :
    pollRecsSorted [⟨1, 1, 1⟩, ⟨2, 3, 1⟩] ∧
    g_poll_records_insert [⟨1, 1, 1⟩, ⟨2, 3, 1⟩] ⟨3, 1, 1⟩
      = [⟨1, 1, 1⟩, ⟨3, 1, 1⟩, ⟨2, 3, 1⟩] ∧
    pollRecsSorted (g_poll_records_insert [⟨1, 1, 1⟩, ⟨2, 3, 1⟩] ⟨3, 1, 1⟩) := by
  have hs : pollRecsSorted [(⟨1, 1, 1⟩ : GPollRec), ⟨2, 3, 1⟩] := by
    rw [pollRecsSorted, List.pairwise_cons]
    refine ⟨?_, ?_⟩
    · intro b hb
      rcases List.mem_cons.mp hb with h | h
      · subst h; decide
      · simp at h
    · rw [List.pairwise_cons]
      exact ⟨fun b hb => by simp at hb, List.Pairwise.nil⟩
  have h := g_poll_records_insert_sorted_stable.1
    [⟨1, 1, 1⟩, ⟨2, 3, 1⟩] ⟨3, 1, 1⟩ hs
  exact ⟨hs, by rw [h.1]; rfl, h.2⟩

/-! ### Query and removal on the poll-record store -/

/-- The loop of `g_baseline_poller_query` / `g_poll_context_query`: walk
from the head while `max_priority >= pollrec->priority`; a slot index is
consumed per record walked (`n_poll++`), and the slot is actually written
(`fds[n_poll] = ...`, `revents = 0`) only when the index is within the
caller's buffer and the record's interest mask is nonzero.  Returns the
written (index, slot) pairs and the final `n_poll` counter. -/
def pollQueryLoop (recs : List GPollRec) (max_priority : Int) (n_fds : Nat)
    (n_poll : Nat) : List (Nat × GPollFD) × Nat :=
  match recs with
  | [] => ([], n_poll)
  | pollrec :: rest =>
      if max_priority ≥ pollrec.priority then
        let write :=
          if n_poll < n_fds ∧ pollrec.events ≠ 0 then
            [(n_poll, ⟨pollrec.fd, pollrec.events, 0⟩)]
          else []
        let next := pollQueryLoop rest max_priority n_fds (n_poll + 1)
        (write ++ next.1, next.2)
      else ([], n_poll)

/-- Embeds `g_baseline_poller_query` (gmain-poll.c; `g_poll_context_query`
of the unnamed revision is the same loop): the scan starts with
`n_poll = 0` and the function returns the written slots together with the
count consumed, which is also the return value handed to the caller. -/
def g_baseline_poller_query (recs : List GPollRec) (max_priority : Int)
    (n_fds : Nat) : List (Nat × GPollFD) × Nat :=
  pollQueryLoop recs max_priority n_fds 0

/-- The loop of `g_baseline_poller_remove_fd` / `g_poll_context_remove_fd`:
scan head-to-tail, unlink the first record whose descriptor matches and
stop.  The Bool records whether a match was found; in
`g_baseline_poller_remove_fd` the trailing `g_return_if_fail (pollrec != NULL)`
flags the call loudly exactly when it is `false` (the store is left
unchanged and the function returns normally — no crash). -/
def g_baseline_poller_remove_fd (recs : List GPollRec) (fd : Int) :
    List GPollRec × Bool :=
  match recs with
  | [] => ([], false)
  | pollrec :: rest =>
      if pollrec.fd = fd then (rest, true)
      else
        let r := g_baseline_poller_remove_fd rest fd
        (pollrec :: r.1, r.2)

/-- The loop of `g_baseline_poller_modify_fd` / `g_poll_context_modify_fd`:
in-place update of the first matching record's interest mask and priority
(no re-sort). -/
def g_baseline_poller_modify_fd (recs : List GPollRec) (fd : Int)
    (events : Nat) (priority : Int) : List GPollRec :=
  match recs with
  | [] => []
  | pollrec :: rest =>
      if pollrec.fd = fd then
        { pollrec with events := events, priority := priority } :: rest
      else pollrec :: g_baseline_poller_modify_fd rest fd events priority

lemma pollQueryLoop_count (max_priority : Int) (n_fds : Nat) :
    ∀ (recs : List GPollRec) (n_poll : Nat),
      (pollQueryLoop recs max_priority n_fds n_poll).2
        = n_poll
          + (recs.takeWhile (fun r => r.priority ≤ max_priority)).length := by
  intro recs
  induction recs with
  | nil => intro n_poll; simp [pollQueryLoop]
  | cons a rest ih =>
      intro n_poll
      by_cases h : max_priority ≥ a.priority
      · rw [pollQueryLoop]
        simp only [h, if_true]
        rw [ih (n_poll + 1)]
        rw [List.takeWhile_cons, if_pos (by simpa using h)]
        simp only [List.length_cons]
        omega
      · rw [pollQueryLoop]
        simp only [h, if_false]
        rw [List.takeWhile_cons,
          if_neg (by simp only [decide_eq_true_eq]; omega)]
        simp

lemma mem_of_mem_takeWhile' {α : Type} (q : α → Bool) :
    ∀ (l : List α) (x : α), x ∈ l.takeWhile q → x ∈ l := by
  intro l
  induction l with
  | nil => intro x hx; simp at hx
  | cons a t ih =>
      intro x hx
      rw [List.takeWhile_cons] at hx
      by_cases ha : q a = true
      · rw [if_pos ha] at hx
        rcases List.mem_cons.mp hx with h | h
        · exact h ▸ List.mem_cons_self a t
        · exact List.mem_cons_of_mem a (ih x h)
      · rw [if_neg ha] at hx
        simp at hx

lemma pairwise_takeWhile {α : Type} {R : α → α → Prop} (q : α → Bool) :
    ∀ l : List α, l.Pairwise R → (l.takeWhile q).Pairwise R := by
  intro l
  induction l with
  | nil => intro _; simp
  | cons a t ih =>
      intro hp
      rw [List.pairwise_cons] at hp
      rw [List.takeWhile_cons]
      by_cases ha : q a = true
      · rw [if_pos ha, List.pairwise_cons]
        exact ⟨fun b hb => hp.1 b (mem_of_mem_takeWhile' q t b hb), ih hp.2⟩
      · rw [if_neg ha]; exact List.Pairwise.nil

lemma pollQueryLoop_writes (max_priority : Int) (n_fds : Nat) :
    ∀ (recs : List GPollRec) (n_poll : Nat),
      (∀ r ∈ recs, r.events ≠ 0) →
      n_poll + (recs.takeWhile
          (fun r => r.priority ≤ max_priority)).length ≤ n_fds →
      (pollQueryLoop recs max_priority n_fds n_poll).1
        = (List.enumFrom n_poll
            (recs.takeWhile (fun r => r.priority ≤ max_priority))).map
              (fun p => (p.1, GPollFD.mk p.2.fd p.2.events 0)) := by
  intro recs
  induction recs with
  | nil => intro n_poll _ _; simp [pollQueryLoop]
  | cons a rest ih =>
      intro n_poll hev hcap
      by_cases h : max_priority ≥ a.priority
      · have htw :
            (a :: rest).takeWhile (fun r => r.priority ≤ max_priority)
              = a :: rest.takeWhile (fun r => r.priority ≤ max_priority) := by
          rw [List.takeWhile_cons, if_pos (by simpa using h)]
        rw [htw] at hcap
        simp only [List.length_cons] at hcap
        have hwrite : n_poll < n_fds := by omega
        have haev : a.events ≠ 0 := hev a (List.mem_cons_self a rest)
        rw [pollQueryLoop]
        simp only [h, if_true, hwrite, haev, ne_eq, not_false_eq_true,
          and_self, if_true]
        rw [ih (n_poll + 1)
          (fun r hr => hev r (List.mem_cons_of_mem a hr)) (by omega)]
        rw [htw]
        simp [List.enumFrom]
      · rw [pollQueryLoop]
        simp only [h, if_false]
        rw [List.takeWhile_cons,
          if_neg (by simp only [decide_eq_true_eq]; omega)]
        simp [List.enumFrom]

lemma pollQueryLoop_writes_from_store (max_priority : Int) (n_fds : Nat) :
    ∀ (recs : List GPollRec) (n_poll : Nat) (w : Nat × GPollFD),
      w ∈ (pollQueryLoop recs max_priority n_fds n_poll).1 →
      ∃ r ∈ recs, r.priority ≤ max_priority ∧ r.events ≠ 0 ∧
        w.2 = GPollFD.mk r.fd r.events 0 := by
  intro recs
  induction recs with
  | nil => intro n_poll w hw; simp [pollQueryLoop] at hw
  | cons a rest ih =>
      intro n_poll w hw
      by_cases h : max_priority ≥ a.priority
      · rw [pollQueryLoop] at hw
        simp only [h, if_true, List.mem_append] at hw
        rcases hw with hw | hw
        · by_cases hc : n_poll < n_fds ∧ a.events ≠ 0
          · rw [if_pos hc] at hw
            simp only [List.mem_singleton] at hw
            exact ⟨a, List.mem_cons_self a rest, by omega, hc.2,
              by rw [hw]⟩
          · rw [if_neg hc] at hw
            simp at hw
        · obtain ⟨r, hr, hrp, hre, hrw⟩ := ih (n_poll + 1) w hw
          exact ⟨r, List.mem_cons_of_mem a hr, hrp, hre, hrw⟩
      · rw [pollQueryLoop] at hw
        simp only [h, if_false] at hw
        simp at hw

/-- Claim C3: the query walks from the head while the record priority is
`≤ max_priority`; it returns the number of such records (independently of
the caller's buffer capacity, so the count may exceed it); with all
interest masks nonzero and a sufficient buffer it writes one slot per
such record, in store order — which on a sorted store is ascending
priority order; every written slot stems from a record of priority
`≤ max_priority`; and on the store built by adding priorities
[5, 1, 3, 1], a query with `max_priority = 3` returns exactly the
priority-1 and priority-3 records in ascending order, never the
priority-5 record. -/
theorem g_baseline_poller_query_spec :
    (∀ (recs : List GPollRec) (maxp : Int) (n_fds : Nat),
        (g_baseline_poller_query recs maxp n_fds).2
          = (recs.takeWhile (fun r => r.priority ≤ maxp)).length) ∧
    (∀ (recs : List GPollRec) (maxp : Int) (n_fds : Nat),
        pollRecsSorted recs → (∀ r ∈ recs, r.events ≠ 0) →
        (recs.takeWhile (fun r => r.priority ≤ maxp)).length ≤ n_fds →
        (g_baseline_poller_query recs maxp n_fds).1
          = (List.enumFrom 0
              (recs.takeWhile (fun r => r.priority ≤ maxp))).map
                (fun p => (p.1, GPollFD.mk p.2.fd p.2.events 0)) ∧
        pollRecsSorted (recs.takeWhile (fun r => r.priority ≤ maxp))) ∧
    (∀ (recs : List GPollRec) (maxp : Int) (n_fds : Nat) (w : Nat × GPollFD),
        w ∈ (g_baseline_poller_query recs maxp n_fds).1 →
        ∃ r ∈ recs, r.priority ≤ maxp ∧ r.events ≠ 0 ∧
          w.2 = GPollFD.mk r.fd r.events 0) ∧
    (g_baseline_poller_query
        ([GPollRec.mk 1 5 1, GPollRec.mk 2 1 1,
          GPollRec.mk 3 3 1, GPollRec.mk 4 1 1].foldl
          g_poll_records_insert []) 3 4
      = ([(0, GPollFD.mk 2 1 0), (1, GPollFD.mk 4 1 0),
          (2, GPollFD.mk 3 1 0)], 3)) := by
  refine ⟨?_, ?_, ?_, ?_⟩
  · intro recs maxp n_fds
    rw [g_baseline_poller_query, pollQueryLoop_count]
    omega
  · intro recs maxp n_fds hs hev hcap
    constructor
    · rw [g_baseline_poller_query]
      exact pollQueryLoop_writes maxp n_fds recs 0 hev (by omega)
    · exact pairwise_takeWhile _ recs hs
  · intro recs maxp n_fds w hw
    exact pollQueryLoop_writes_from_store maxp n_fds recs 0 w hw
  · decide

/-- Witness for C3: the query law applied to the concrete sorted store
built from priorities [5, 1, 3, 1]. -/
theorem g_baseline_poller_query_spec_witness :
    (g_baseline_poller_query
        [GPollRec.mk 2 1 1, GPollRec.mk 4 1 1,
         GPollRec.mk 3 3 1, GPollRec.mk 1 5 1] 3 4).1
      = (List.enumFrom 0
          ([GPollRec.mk 2 1 1, GPollRec.mk 4 1 1,
            GPollRec.mk 3 3 1, GPollRec.mk 1 5 1].takeWhile
              (fun r => r.priority ≤ 3))).map
            (fun p => (p.1, GPollFD.mk p.2.fd p.2.events 0)) := by
  have hs : pollRecsSorted
      [GPollRec.mk 2 1 1, GPollRec.mk 4 1 1,
       GPollRec.mk 3 3 1, GPollRec.mk 1 5 1] := by
    rw [pollRecsSorted]
    refine List.Pairwise.cons ?_ (List.Pairwise.cons ?_
      (List.Pairwise.cons ?_ (List.Pairwise.cons ?_ List.Pairwise.nil)))
    all_goals intro b hb
    all_goals fin_cases hb <;> decide
  exact (g_baseline_poller_query_spec.2.1
    [GPollRec.mk 2 1 1, GPollRec.mk 4 1 1,
     GPollRec.mk 3 3 1, GPollRec.mk 1 5 1] 3 4 hs
    (by intro r hr; fin_cases hr <;> decide) (by decide)).1

lemma remove_fd_found_iff (fd : Int) :
    ∀ recs : List GPollRec,
      (g_baseline_poller_remove_fd recs fd).2 = true
        ↔ ∃ x ∈ recs, x.fd = fd := by
  intro recs
  induction recs with
  | nil => simp [g_baseline_poller_remove_fd]
  | cons a rest ih =>
      by_cases h : a.fd = fd
      · rw [g_baseline_poller_remove_fd]
        simp only [h, if_true]
        constructor
        · intro _
          exact ⟨a, List.mem_cons_self a rest, h⟩
        · intro _
          trivial
      · rw [g_baseline_poller_remove_fd]
        simp only [h, if_false]
        rw [ih]
        constructor
        · rintro ⟨x, hx, hfd⟩
          exact ⟨x, List.mem_cons_of_mem a hx, hfd⟩
        · rintro ⟨x, hx, hfd⟩
          rcases List.mem_cons.mp hx with h' | h'
          · subst h'; exact absurd hfd h
          · exact ⟨x, h', hfd⟩

lemma remove_fd_countP (fd : Int) :
    ∀ recs : List GPollRec,
      (g_baseline_poller_remove_fd recs fd).1.countP (fun x => x.fd = fd)
        = recs.countP (fun x => x.fd = fd)
          - (if (g_baseline_poller_remove_fd recs fd).2 then 1 else 0) := by
  intro recs
  induction recs with
  | nil => simp [g_baseline_poller_remove_fd]
  | cons a rest ih =>
      by_cases h : a.fd = fd
      · rw [g_baseline_poller_remove_fd]
        simp only [h, if_true]
        rw [List.countP_cons]
        simp [h]
      · rw [g_baseline_poller_remove_fd]
        simp only [h, if_false]
        simp [List.countP_cons, h, ih]

lemma remove_fd_first_match (fd : Int) :
    ∀ (pre suf : List GPollRec) (r : GPollRec), r.fd = fd →
      (∀ x ∈ pre, x.fd ≠ fd) →
      g_baseline_poller_remove_fd (pre ++ r :: suf) fd = (pre ++ suf, true) := by
  intro pre
  induction pre with
  | nil =>
      intro suf r hr _
      simp only [List.nil_append]
      rw [g_baseline_poller_remove_fd]
      simp [hr]
  | cons a t ih =>
      intro suf r hr hpre
      have ha : a.fd ≠ fd := hpre a (List.mem_cons_self a t)
      simp only [List.cons_append]
      rw [g_baseline_poller_remove_fd]
      simp only [ha, if_false]
      rw [ih suf r hr fun x hx => hpre x (List.mem_cons_of_mem a hx)]

/-- Claim C6: removal deletes exactly the first record whose descriptor
matches (duplicates added deliberately survive as later records); removing
a descriptor not present leaves the store unchanged and is flagged (the
found flag is false, which trips `g_return_if_fail` — a loud programming
error, not a crash); consequently when the descriptor is present exactly
once, a second removal of the same descriptor is flagged. -/
theorem g_baseline_poller_remove_fd_spec :
    (∀ (pre suf : List GPollRec) (r : GPollRec) (fd : Int), r.fd = fd →
        (∀ x ∈ pre, x.fd ≠ fd) →
        g_baseline_poller_remove_fd (pre ++ r :: suf) fd
          = (pre ++ suf, true)) ∧
    (∀ (recs : List GPollRec) (fd : Int), (∀ x ∈ recs, x.fd ≠ fd) →
        g_baseline_poller_remove_fd recs fd = (recs, false)) ∧
    (∀ (recs : List GPollRec) (fd : Int),
        recs.countP (fun x => x.fd = fd) = 1 →
        (g_baseline_poller_remove_fd
            (g_baseline_poller_remove_fd recs fd).1 fd).2 = false) := by
  refine ⟨?_, ?_, ?_⟩
  · intro pre suf r fd hr hpre
    exact remove_fd_first_match fd pre suf r hr hpre
  · intro recs fd habs
    induction recs with
    | nil => rfl
    | cons a rest ih =>
        have ha : a.fd ≠ fd := habs a (List.mem_cons_self a rest)
        rw [g_baseline_poller_remove_fd]
        simp only [ha, if_false]
        rw [ih fun x hx => habs x (List.mem_cons_of_mem a hx)]
  · intro recs fd hcount
    have hfound : (g_baseline_poller_remove_fd recs fd).2 = true := by
      rw [remove_fd_found_iff]
      have hpos : 0 < recs.countP (fun x => x.fd = fd) := by omega
      obtain ⟨x, hx, hfd⟩ := List.countP_pos_iff.mp hpos
      exact ⟨x, hx, by simpa using hfd⟩
    have hzero :
        (g_baseline_poller_remove_fd recs fd).1.countP
          (fun x => x.fd = fd) = 0 := by
      rw [remove_fd_countP, hcount, hfound]
      simp
    by_contra hsnd
    rw [Bool.not_eq_false] at hsnd
    obtain ⟨x, hx, hfd⟩ := (remove_fd_found_iff fd _).mp hsnd
    have : 0 < (g_baseline_poller_remove_fd recs fd).1.countP
        (fun x => x.fd = fd) :=
      List.countP_pos_iff.mpr ⟨x, hx, by simpa using hfd⟩
    omega

/-- Witness for C6: in the store [(fd 7, prio 0), (fd 7, prio 1), (fd 8, prio 2)]
with fd 7 added twice, removal of fd 7 deletes only the first matching
record; removing fd 9 (absent) is flagged with the store unchanged; and in
a store holding fd 8 once, the second removal of fd 8 is flagged. -/
theorem g_baseline_poller_remove_fd_spec_witness :
    g_baseline_poller_remove_fd
        [GPollRec.mk 7 0 1, GPollRec.mk 7 1 1, GPollRec.mk 8 2 1] 7
      = ([GPollRec.mk 7 1 1, GPollRec.mk 8 2 1], true) ∧
    g_baseline_poller_remove_fd
        [GPollRec.mk 7 0 1, GPollRec.mk 7 1 1, GPollRec.mk 8 2 1] 9
      = ([GPollRec.mk 7 0 1, GPollRec.mk 7 1 1, GPollRec.mk 8 2 1], false) ∧
    (g_baseline_poller_remove_fd
        (g_baseline_poller_remove_fd [GPollRec.mk 8 2 1] 8).1 8).2 = false := by
  refine ⟨?_, ?_, ?_⟩
  · have h := g_baseline_poller_remove_fd_spec.1 []
      [GPollRec.mk 7 1 1, GPollRec.mk 8 2 1] (GPollRec.mk 7 0 1) 7
      (by decide) (by intro x hx; simp at hx)
    simpa using h
  · exact g_baseline_poller_remove_fd_spec.2.1
      [GPollRec.mk 7 0 1, GPollRec.mk 7 1 1, GPollRec.mk 8 2 1] 9
      (by intro x hx; fin_cases hx <;> decide)
  · exact g_baseline_poller_remove_fd_spec.2.2
      [GPollRec.mk 8 2 1] 8 (by decide)

/-! ### The epoll backend (gmain-epoll.c)

The compatibility set of the mutex/hash revision is a `GHashTable`
mapping descriptor to interest mask; it is modelled as an association
list with (by construction) at most one entry per key.  The result of
the kernel `epoll_ctl` call is an external input. -/

def g_hash_table_contains (t : List (Int × Nat)) (k : Int) : Bool :=
  t.any (fun p => p.1 = k)

def g_hash_table_lookup (t : List (Int × Nat)) (k : Int) : Option Nat :=
  (t.find? (fun p => p.1 = k)).map Prod.snd

def g_hash_table_replace (t : List (Int × Nat)) (k : Int) (v : Nat) :
    List (Int × Nat) :=
  if g_hash_table_contains t k then
    t.map (fun p => if p.1 = k then (k, v) else p)
  else t ++ [(k, v)]

def g_hash_table_remove (t : List (Int × Nat)) (k : Int) :
    List (Int × Nat) × Bool :=
  (t.filter (fun p => p.1 ≠ k), g_hash_table_contains t k)

structure GEpollLoopBackend where
  n_poll_records : Nat
  compat_fds : List (Int × Nat)
deriving Repr, DecidableEq

/-- Outcome of an `epoll_ctl` call, an external kernel input. -/
inductive EpollCtlResult where
  | ok
  | err (errno : Nat)
deriving Repr, DecidableEq

/-- Embeds `g_epoll_context_add_fd` (mutex/hash revision of gmain-epoll.c;
the other revisions behave identically on the state modelled here):
`epoll_ctl (EPOLL_CTL_ADD)` runs first; on success the atomic
`n_poll_records` counter is incremented and TRUE returned; on `EPERM`
the descriptor and its interest mask go into the compat hash table and
TRUE is returned; any other error logs a warning and returns FALSE.
Result: (new state, return value, warning emitted). -/
def g_epoll_context_add_fd (backend : GEpollLoopBackend) (fd : Int)
    (events : Nat) (ctl : EpollCtlResult) :
    GEpollLoopBackend × Bool × Bool :=
  match ctl with
  | .err e =>
      if e = EPERM then
        ({ backend with
            compat_fds := g_hash_table_replace backend.compat_fds fd events },
          true, false)
      else
        (backend, false, true)
  | .ok =>
      ({ backend with n_poll_records := backend.n_poll_records + 1 },
        true, false)

/-- Embeds `g_epoll_context_modify_fd` (mutex/hash revision): if the
descriptor is in the compat set its mask is replaced there and TRUE
returned without touching the kernel; otherwise `epoll_ctl (EPOLL_CTL_MOD)`
runs, a failure logging a warning and returning FALSE.  Result:
(new state, return value, warning emitted, epoll_ctl issued). -/
def g_epoll_context_modify_fd (backend : GEpollLoopBackend) (fd : Int)
    (events : Nat) (ctl : EpollCtlResult) :
    GEpollLoopBackend × Bool × Bool × Bool :=
  if g_hash_table_contains backend.compat_fds fd then
    ({ backend with
        compat_fds := g_hash_table_replace backend.compat_fds fd events },
      true, false, false)
  else
    match ctl with
    | .ok => (backend, true, false, true)
    | .err _ => (backend, false, true, true)

/-- Embeds `g_epoll_context_remove_fd` (mutex/hash revision):
`g_hash_table_remove` reports whether the descriptor was a compat fd; if
so the function returns TRUE without touching the kernel; otherwise the
counter is decremented and `epoll_ctl (EPOLL_CTL_DEL)` runs — EBADF,
ENOENT and EPERM are tolerated silently (the close-then-remove race) but
still return FALSE, any other error also logs a warning.  Result:
(new state, return value, warning emitted, epoll_ctl issued). -/
def g_epoll_context_remove_fd (backend : GEpollLoopBackend) (fd : Int)
    (ctl : EpollCtlResult) : GEpollLoopBackend × Bool × Bool × Bool :=
  let rem := g_hash_table_remove backend.compat_fds fd
  if rem.2 then
    ({ backend with compat_fds := rem.1 }, true, false, false)
  else
    let backend' :=
      { backend with n_poll_records := backend.n_poll_records - 1 }
    match ctl with
    | .ok => (backend', true, false, true)
    | .err e =>
        (backend', false,
          decide (e ≠ EBADF ∧ e ≠ ENOENT ∧ e ≠ EPERM), true)

lemma find_of_all_neg {α : Type} (q : α → Bool) (l : List α)
    (h : ∀ x ∈ l, q x = false) : l.find? q = none :=
  List.find?_eq_none.mpr fun x hx => by rw [h x hx]; exact Bool.false_ne_true

lemma find_append_split {α : Type} (q : α → Bool) :
    ∀ l₁ l₂ : List α,
      (l₁ ++ l₂).find? q
        = match l₁.find? q with
          | some x => some x
          | none => l₂.find? q := by
  intro l₁ l₂
  induction l₁ with
  | nil => simp
  | cons a t ih =>
      by_cases ha : q a = true
      · rw [List.cons_append, List.find?_cons_of_pos _ ha,
          List.find?_cons_of_pos _ ha]
      · rw [List.cons_append,
          List.find?_cons_of_neg _ (by simp [ha]),
          List.find?_cons_of_neg _ (by simp [ha])]
        exact ih

lemma find_map_congr {α : Type} (f : α → α) (q : α → Bool)
    (hq : ∀ x, q (f x) = q x) (hfix : ∀ x, q x = true → f x = x) :
    ∀ l : List α, (l.map f).find? q = l.find? q := by
  intro l
  induction l with
  | nil => rfl
  | cons a t ih =>
      by_cases ha : q a = true
      · rw [List.map_cons,
          List.find?_cons_of_pos _ (by rw [hq a]; exact ha),
          List.find?_cons_of_pos _ ha, hfix a ha]
      · rw [List.map_cons,
          List.find?_cons_of_neg _ (by rw [hq a]; simp [ha]),
          List.find?_cons_of_neg _ (by simp [ha])]
        exact ih

lemma contains_false_all (t : List (Int × Nat)) (k : Int)
    (hc : g_hash_table_contains t k = false) :
    ∀ p ∈ t, decide (p.1 = k) = false := by
  intro p hp
  cases hdec : decide (p.1 = k) with
  | false => rfl
  | true =>
      exfalso
      have : g_hash_table_contains t k = true := by
        rw [g_hash_table_contains, List.any_eq_true]
        exact ⟨p, hp, hdec⟩
      rw [hc] at this
      exact Bool.false_ne_true this

lemma find_map_update (k : Int) (v : Nat) :
    ∀ t : List (Int × Nat), g_hash_table_contains t k = true →
      (t.map (fun p => if p.1 = k then (k, v) else p)).find?
          (fun p => decide (p.1 = k)) = some (k, v) := by
  intro t
  induction t with
  | nil => intro h; simp [g_hash_table_contains] at h
  | cons a rest ih =>
      intro h
      by_cases ha : a.1 = k
      · rw [List.map_cons, if_pos ha]
        exact List.find?_cons_of_pos _ (by simp)
      · rw [List.map_cons, if_neg ha,
          List.find?_cons_of_neg _ (by simp [ha])]
        apply ih
        rw [g_hash_table_contains, List.any_cons] at h
        simpa [ha, g_hash_table_contains] using h

lemma lookup_replace_self (t : List (Int × Nat)) (k : Int) (v : Nat) :
    g_hash_table_lookup (g_hash_table_replace t k v) k = some v := by
  rw [g_hash_table_replace, g_hash_table_lookup]
  by_cases hc : g_hash_table_contains t k = true
  · rw [if_pos hc, find_map_update k v t hc]
    rfl
  · rw [if_neg hc, find_append_split,
      find_of_all_neg _ t (contains_false_all t k (by simpa using hc))]
    rw [List.find?_cons_of_pos _ (by simp)]
    rfl

lemma lookup_replace_other (t : List (Int × Nat)) (k k' : Int) (v : Nat)
    (hne : k' ≠ k) :
    g_hash_table_lookup (g_hash_table_replace t k v) k'
      = g_hash_table_lookup t k' := by
  rw [g_hash_table_replace, g_hash_table_lookup, g_hash_table_lookup]
  by_cases hc : g_hash_table_contains t k = true
  · rw [if_pos hc]
    rw [find_map_congr _ _ ?hq ?hfix t]
    case hq =>
      intro x
      by_cases hx : x.1 = k
      · rw [if_pos hx]
        show decide (k = k') = decide (x.1 = k')
        rw [hx]
      · rw [if_neg hx]
    case hfix =>
      intro x hx
      rw [decide_eq_true_eq] at hx
      rw [if_neg fun h => hne (by rw [← hx, h])]
  · rw [if_neg hc, find_append_split]
    cases hf : t.find? (fun p => decide (p.1 = k')) with
    | some x => rfl
    | none =>
        have hsingle : ([(k, v)] : List (Int × Nat)).find?
            (fun p => decide (p.1 = k')) = none := by
          rw [List.find?_cons_of_neg _
            (by simp only [decide_eq_true_eq]; exact fun h => hne h.symm)]
          rfl
        rw [hsingle]

lemma lookup_remove_self (t : List (Int × Nat)) (k : Int) :
    g_hash_table_lookup (g_hash_table_remove t k).1 k = none := by
  have hall : ∀ p ∈ (g_hash_table_remove t k).1,
      (fun p : Int × Nat => decide (p.1 = k)) p = false := by
    intro p hp
    rw [g_hash_table_remove] at hp
    have hmem := List.mem_filter.mp hp
    show decide (p.1 = k) = false
    cases hdec : decide (p.1 = k) with
    | false => rfl
    | true =>
        exfalso
        rw [decide_eq_true_eq] at hdec
        have := hmem.2
        simp [hdec] at this
  rw [g_hash_table_lookup, find_of_all_neg _ _ hall]
  rfl

lemma lookup_remove_other (t : List (Int × Nat)) (k k' : Int)
    (hne : k' ≠ k) :
    g_hash_table_lookup (g_hash_table_remove t k).1 k'
      = g_hash_table_lookup t k' := by
  rw [g_hash_table_remove, g_hash_table_lookup, g_hash_table_lookup]
  induction t with
  | nil => rfl
  | cons a rest ih =>
      by_cases ha : a.1 = k
      · rw [List.filter_cons_of_neg (by simp [ha]),
          List.find?_cons_of_neg _
            (by simp only [decide_eq_true_eq]; rw [ha];
                exact fun h => hne h.symm)]
        exact ih
      · rw [List.filter_cons_of_pos (by simp [ha])]
        by_cases ha' : a.1 = k'
        · rw [List.find?_cons_of_pos _ (by simp [ha']),
            List.find?_cons_of_pos _ (by simp [ha'])]
        · rw [List.find?_cons_of_neg _ (by simp [ha']),
            List.find?_cons_of_neg _ (by simp [ha'])]
          exact ih

/-- Claim C4: when `epoll_ctl (EPOLL_CTL_ADD)` fails with EPERM, the
descriptor and its interest mask are stored in the compatibility set,
the kernel-managed record counter is untouched, no warning is emitted and
the call reports success; any other registration failure logs a warning,
leaves the state unchanged and reports failure; successful registration
increments the counter and reports success. -/
theorem g_epoll_context_add_fd_spec :
    (∀ (b : GEpollLoopBackend) (fd : Int) (events : Nat),
        g_hash_table_lookup
            (g_epoll_context_add_fd b fd events (.err EPERM)).1.compat_fds fd
          = some events ∧
        (g_epoll_context_add_fd b fd events (.err EPERM)).1.n_poll_records
          = b.n_poll_records ∧
        (g_epoll_context_add_fd b fd events (.err EPERM)).2
          = (true, false)) ∧
    (∀ (b : GEpollLoopBackend) (fd : Int) (events : Nat) (e : Nat),
        e ≠ EPERM →
        g_epoll_context_add_fd b fd events (.err e) = (b, false, true)) ∧
    (∀ (b : GEpollLoopBackend) (fd : Int) (events : Nat),
        g_epoll_context_add_fd b fd events .ok
          = ({ b with n_poll_records := b.n_poll_records + 1 },
              true, false)) := by
  refine ⟨?_, ?_, ?_⟩
  · intro b fd events
    refine ⟨?_, rfl, rfl⟩
    rw [show (g_epoll_context_add_fd b fd events (.err EPERM)).1.compat_fds
      = g_hash_table_replace b.compat_fds fd events from by
        rw [g_epoll_context_add_fd]; simp]
    exact lookup_replace_self b.compat_fds fd events
  · intro b fd events e he
    rw [g_epoll_context_add_fd]
    simp [he]
  · intro b fd events
    rfl

/-- Witness for C4: adding fd 3 with mask `G_IO_IN` under an EPERM
rejection stores (3, G_IO_IN) in the compat set, keeps the counter at 5,
and reports success without warning; an EBADF rejection reports failure
with a warning. -/
theorem g_epoll_context_add_fd_spec_witness :
    g_hash_table_lookup
        (g_epoll_context_add_fd
          { n_poll_records := 5, compat_fds := [] } 3 G_IO_IN
          (.err EPERM)).1.compat_fds 3 = some G_IO_IN ∧
    (g_epoll_context_add_fd
        { n_poll_records := 5, compat_fds := [] } 3 G_IO_IN
        (.err EPERM)).1.n_poll_records = 5 ∧
    g_epoll_context_add_fd
        { n_poll_records := 5, compat_fds := [] } 3 G_IO_IN (.err EBADF)
      = ({ n_poll_records := 5, compat_fds := [] }, false, true) := by
  refine ⟨?_, ?_, ?_⟩
  · exact (g_epoll_context_add_fd_spec.1
      { n_poll_records := 5, compat_fds := [] } 3 G_IO_IN).1
  · exact (g_epoll_context_add_fd_spec.1
      { n_poll_records := 5, compat_fds := [] } 3 G_IO_IN).2.1
  · exact g_epoll_context_add_fd_spec.2.1
      { n_poll_records := 5, compat_fds := [] } 3 G_IO_IN EBADF
      (by decide)

/-! ### Event-mask translation (gmain-epoll.c)

On Linux the GIOCondition flags G_IO_IN/OUT/PRI/ERR/HUP have the same
values as EPOLLIN/OUT/PRI/ERR/HUP, so the preprocessor selects the
single-mask branch of both inline translation functions. -/

def g_io_condition_from_epoll_events (epoll_events : Nat) : Nat :=
  epoll_events
    &&& (G_IO_IN ||| G_IO_OUT ||| G_IO_PRI ||| G_IO_ERR ||| G_IO_HUP)

def g_io_condition_to_epoll_events (io_cond : Nat) : Nat :=
  io_cond &&& (EPOLLIN ||| EPOLLOUT ||| EPOLLPRI)

lemma nat_and_assoc (a b c : Nat) : a &&& b &&& c = a &&& (b &&& c) := by
  apply Nat.eq_of_testBit_eq
  intro i
  simp [Nat.testBit_and, Bool.and_assoc]

/-- Claim C10: a portable mask whose bits lie within
G_IO_IN|G_IO_OUT|G_IO_PRI survives the round trip through
`g_io_condition_to_epoll_events` then `g_io_condition_from_epoll_events`;
the to-epoll translation never sets EPOLLERR/EPOLLHUP; and the from-epoll
translation carries EPOLLERR and EPOLLHUP through to G_IO_ERR and
G_IO_HUP. -/
theorem g_io_condition_epoll_round_trip :
    (∀ m : Nat, m &&& (G_IO_IN ||| G_IO_OUT ||| G_IO_PRI) = m →
        g_io_condition_from_epoll_events
          (g_io_condition_to_epoll_events m) = m) ∧
    (∀ c : Nat,
        g_io_condition_to_epoll_events c &&& (EPOLLERR ||| EPOLLHUP) = 0) ∧
    (∀ e : Nat,
        g_io_condition_from_epoll_events e &&& G_IO_ERR = e &&& EPOLLERR ∧
        g_io_condition_from_epoll_events e &&& G_IO_HUP = e &&& EPOLLHUP) := by
  refine ⟨?_, ?_, ?_⟩
  · intro m hm
    rw [g_io_condition_to_epoll_events, g_io_condition_from_epoll_events,
      nat_and_assoc]
    rw [show (EPOLLIN ||| EPOLLOUT ||| EPOLLPRI)
        &&& (G_IO_IN ||| G_IO_OUT ||| G_IO_PRI ||| G_IO_ERR ||| G_IO_HUP)
      = (G_IO_IN ||| G_IO_OUT ||| G_IO_PRI) from by decide]
    exact hm
  · intro c
    rw [g_io_condition_to_epoll_events, nat_and_assoc]
    rw [show (EPOLLIN ||| EPOLLOUT ||| EPOLLPRI) &&& (EPOLLERR ||| EPOLLHUP)
      = 0 from by decide]
    exact Nat.and_zero c
  · intro e
    constructor
    · rw [g_io_condition_from_epoll_events, nat_and_assoc]
      rw [show (G_IO_IN ||| G_IO_OUT ||| G_IO_PRI ||| G_IO_ERR ||| G_IO_HUP)
          &&& G_IO_ERR = EPOLLERR from by decide]
    · rw [g_io_condition_from_epoll_events, nat_and_assoc]
      rw [show (G_IO_IN ||| G_IO_OUT ||| G_IO_PRI ||| G_IO_ERR ||| G_IO_HUP)
          &&& G_IO_HUP = EPOLLHUP from by decide]

/-- Witness for C10: the readable|writable mask (G_IO_IN|G_IO_OUT = 5)
round-trips unchanged. -/
theorem g_io_condition_epoll_round_trip_witness :
    g_io_condition_from_epoll_events (g_io_condition_to_epoll_events 5)
      = 5 :=
  g_io_condition_epoll_round_trip.1 5 (by decide)

/-! ### Wait-failure handling -/

/-- Embeds the `epoll_wait` result handling of `g_epoll_context_iterate`
(same block in all three revisions of gmain-epoll.c): a negative
`n_ready` logs a warning unless `errno == EINTR` and is then clamped to
zero; the iteration always proceeds to hand `n_compat_fds + n_ready`
descriptors to `g_main_context_check` — the wait failure has no error
return path.  Result: (clamped n_ready, descriptor count handed to the
check step, warning emitted). -/
def g_epoll_context_iterate_ready (n_compat_fds : Nat) (wait_ret : Int)
    (errno : Nat) : Nat × Nat × Bool :=
  if wait_ret < 0 then
    (0, n_compat_fds, decide (errno ≠ EINTR))
  else
    (wait_ret.toNat, n_compat_fds + wait_ret.toNat, false)

/-- Embeds the poll-call handling of `g_poll_context_poll` /
`g_baseline_poller_poll`: on a negative return a warning is logged unless
`errno == EINTR`, and the output buffer keeps whatever the query step
left in it (slots whose `revents` are all zero), so the cycle sees zero
ready descriptors; the function returns nothing either way.  `polled` is
the buffer as a successful poll call would leave it.  Result: (buffer
after the call, warning emitted). -/
def g_poll_context_poll_result (fds : List GPollFD) (poll_ret : Int)
    (polled : List GPollFD) (errno : Nat) : List GPollFD × Bool :=
  if poll_ret < 0 then
    (fds, decide (errno ≠ EINTR))
  else (polled, false)

/-- Claim C7: a negative wait result is treated as zero ready descriptors
and never propagated — the epoll iteration hands exactly the compat
descriptors to the check step, and the poll backend's buffer keeps its
query-prepared contents, all of whose `revents` are zero; no warning is
logged when `errno == EINTR`, and a warning is logged for any other
errno. -/
theorem g_wait_failure_zero_ready :
    (∀ (n_compat_fds : Nat) (ret : Int) (errno : Nat), ret < 0 →
        g_epoll_context_iterate_ready n_compat_fds ret errno
          = (0, n_compat_fds, decide (errno ≠ EINTR))) ∧
    (∀ (n_compat_fds : Nat) (ret : Int), ret < 0 →
        (g_epoll_context_iterate_ready n_compat_fds ret EINTR).2.2
          = false) ∧
    (∀ (fds : List GPollFD) (ret : Int) (polled : List GPollFD)
        (errno : Nat), ret < 0 →
        g_poll_context_poll_result fds ret polled errno
          = (fds, decide (errno ≠ EINTR))) ∧
    (∀ (recs : List GPollRec) (maxp : Int) (nfds : Nat)
        (w : Nat × GPollFD),
        w ∈ (g_baseline_poller_query recs maxp nfds).1 →
        w.2.revents = 0) := by
  refine ⟨?_, ?_, ?_, ?_⟩
  · intro n ret errno h
    rw [g_epoll_context_iterate_ready, if_pos h]
  · intro n ret h
    rw [g_epoll_context_iterate_ready, if_pos h]
    simp
  · intro fds ret polled errno h
    rw [g_poll_context_poll_result, if_pos h]
  · intro recs maxp nfds w hw
    obtain ⟨r, _, _, _, hr⟩ :=
      pollQueryLoop_writes_from_store maxp nfds recs 0 w hw
    rw [hr]

/-- Witness for C7: a wait failing with -1 under EINTR yields zero ready
and no warning; under EBADF it yields zero ready with a warning. -/
theorem g_wait_failure_zero_ready_witness :
    g_epoll_context_iterate_ready 3 (-1) EINTR = (0, 3, false) ∧
    g_epoll_context_iterate_ready 3 (-1) EBADF = (0, 3, true) ∧
    g_poll_context_poll_result [GPollFD.mk 5 1 0] (-1)
        [GPollFD.mk 5 1 1] EINTR = ([GPollFD.mk 5 1 0], false) := by
  refine ⟨?_, ?_, ?_⟩
  · rw [g_wait_failure_zero_ready.1 3 (-1) EINTR (by decide)]
    decide
  · rw [g_wait_failure_zero_ready.1 3 (-1) EBADF (by decide)]
    decide
  · rw [g_wait_failure_zero_ready.2.2.1 [GPollFD.mk 5 1 0] (-1)
      [GPollFD.mk 5 1 1] EINTR (by decide)]
    decide

/-! ### Byte-level model of the array-based compat-set removal

`g_epoller_remove_fd` (second revision of gmain-epoll.c; the first
revision's `g_epoll_context_remove_fd` has the identical compat branch)
stores the compatibility set in the `fds_ready` GPollFD array.  On Linux
(little-endian, no padding) each GPollFD occupies 8 bytes: gint `fd`
(4 bytes), gushort `events` (2), gushort `revents` (2).  The buffer is
modelled as a list of bytes because `memmove`'s third argument counts
bytes. -/

def leBytes (w v : Nat) : List Nat :=
  (List.range w).map (fun i => v / 256 ^ i % 256)

def bytesToNat (bs : List Nat) : Nat :=
  bs.foldr (fun b acc => b % 256 + 256 * acc) 0

def gpollfdToBytes (p : GPollFD) : List Nat :=
  leBytes 4 p.fd.toNat ++ leBytes 2 p.events ++ leBytes 2 p.revents

def gpollfdOfBytes (bs : List Nat) : GPollFD :=
  { fd := Int.ofNat (bytesToNat (bs.take 4)),
    events := bytesToNat ((bs.drop 4).take 2),
    revents := bytesToNat ((bs.drop 6).take 2) }

/-- `memmove (buf + dst, buf + src, n)` at byte granularity: bytes
[dst, dst+n) receive the original bytes [src, src+n) (memmove copies as
if through a temporary buffer); all other bytes stay. -/
def memmove (buf : List Nat) (dst src n : Nat) : List Nat :=
  (List.range buf.length).map fun i =>
    if dst ≤ i ∧ i < dst + n then buf.getD (src + (i - dst)) 0
    else buf.getD i 0

/-- Embeds the compat branch of `g_epoller_remove_fd`: scan the first
`n_compat_fds` entries of `fds_ready` for the descriptor; on a match at
index `i`, call `memmove (fds_ready + i, fds_ready + i + 1,
n_compat_fds - 1 - i)` — the pointer operands advance in GPollFD units
(8 bytes each) but the length argument is the bare element count, i.e.
`n_compat_fds - 1 - i` BYTES — then decrement the entry count and return
TRUE.  `none` means the descriptor is not a compat entry and the kernel
path runs instead. -/
def g_epoller_remove_compat_fd (fds_ready : List Nat) (n_compat_fds : Nat)
    (fd : Int) : Option (List Nat × Nat) :=
  match (List.range n_compat_fds).find?
      (fun i => (gpollfdOfBytes ((fds_ready.drop (8 * i)).take 8)).fd = fd)
    with
  | some i =>
      some (memmove fds_ready (8 * i) (8 * (i + 1)) (n_compat_fds - 1 - i),
        n_compat_fds - 1)
  | none => none

/-- Claim C5, evaluated at the failing input: with compatibility entries
(fd 10, events 1) and (fd 11, events 2), removing fd 10 takes the compat
branch and copies `n_compat_fds - 1 - i = 1` byte instead of the 8 bytes
of one GPollFD, so the surviving entry decodes as (fd 11, events 1): its
interest mask has been corrupted, contradicting the claim that every
other compatibility-set entry's descriptor and interest mask are
unchanged (a correct shift would yield (fd 11, events 2)). -/
theorem g_epoller_remove_fd_memmove_bug :
    (g_epoller_remove_compat_fd
        (gpollfdToBytes { fd := 10, events := 1, revents := 0 }
          ++ gpollfdToBytes { fd := 11, events := 2, revents := 0 })
        2 10).map (fun r => (gpollfdOfBytes (r.1.take 8), r.2))
      = some ({ fd := 11, events := 1, revents := 0 }, 1) ∧
    ({ fd := 11, events := 1, revents := 0 } : GPollFD)
      ≠ { fd := 11, events := 2, revents := 0 } := by
  constructor
  · decide
  · decide

/-- The mutex/hash revision of the compat set does behave as the spec
intends: for a descriptor in the compat set, modify updates only that
mapping and remove erases exactly it; both report success without
issuing `epoll_ctl`, the kernel record counter is untouched, and every
other mapping is preserved. -/
theorem g_epoll_context_compat_frame :
    ∀ (b : GEpollLoopBackend) (fd : Int) (events : Nat)
      (ctl : EpollCtlResult),
      g_hash_table_contains b.compat_fds fd = true →
      ((g_epoll_context_modify_fd b fd events ctl).2
          = (true, false, false) ∧
        g_hash_table_lookup
            (g_epoll_context_modify_fd b fd events ctl).1.compat_fds fd
          = some events ∧
        (∀ fd', fd' ≠ fd →
          g_hash_table_lookup
              (g_epoll_context_modify_fd b fd events ctl).1.compat_fds fd'
            = g_hash_table_lookup b.compat_fds fd')) ∧
      ((g_epoll_context_remove_fd b fd ctl).2 = (true, false, false) ∧
        g_hash_table_lookup
            (g_epoll_context_remove_fd b fd ctl).1.compat_fds fd = none ∧
        (g_epoll_context_remove_fd b fd ctl).1.n_poll_records
          = b.n_poll_records ∧
        (∀ fd', fd' ≠ fd →
          g_hash_table_lookup
              (g_epoll_context_remove_fd b fd ctl).1.compat_fds fd'
            = g_hash_table_lookup b.compat_fds fd')) := by
  intro b fd events ctl hc
  have hmod : g_epoll_context_modify_fd b fd events ctl
      = ({ b with
            compat_fds := g_hash_table_replace b.compat_fds fd events },
          true, false, false) := by
    rw [g_epoll_context_modify_fd.eq_def, if_pos hc]
  have hrem : g_epoll_context_remove_fd b fd ctl
      = ({ b with compat_fds := (g_hash_table_remove b.compat_fds fd).1 },
          true, false, false) := by
    rw [g_epoll_context_remove_fd.eq_def]
    have h2 : (g_hash_table_remove b.compat_fds fd).2 = true := hc
    simp only [h2, if_true]
  refine ⟨⟨?_, ?_, ?_⟩, ⟨?_, ?_, ?_, ?_⟩⟩
  · rw [hmod]
  · rw [hmod]
    exact lookup_replace_self b.compat_fds fd events
  · intro fd' hne
    rw [hmod]
    exact lookup_replace_other b.compat_fds fd fd' events hne
  · rw [hrem]
  · rw [hrem]
    exact lookup_remove_self b.compat_fds fd
  · rw [hrem]
  · intro fd' hne
    rw [hrem]
    exact lookup_remove_other b.compat_fds fd fd' hne

/-- Witness for the hash-revision frame theorem at a concrete two-entry
compat set. -/
theorem g_epoll_context_compat_frame_witness :
    g_hash_table_lookup
        (g_epoll_context_remove_fd
          { n_poll_records := 4, compat_fds := [(10, 1), (11, 2)] }
          10 .ok).1.compat_fds 11 = some 2 := by
  have h := (g_epoll_context_compat_frame
    { n_poll_records := 4, compat_fds := [(10, 1), (11, 2)] }
    10 1 .ok (by decide)).2.2.2.2 11 (by decide)
  rw [h]
  decide

/-! ### Registration wake-up behaviour of the portable backends -/

/-- Externally observable actions of a registration call: operations on
the backend's own mutex and the scheduler wake primitive
`g_main_context_wakeup`. -/
inductive PollerOp where
  | lock
  | unlock
  | wakeup
deriving Repr, DecidableEq

structure GPollLoopBackend where
  poll_records : List GPollRec
  n_poll_records : Nat
  poll_changed : Bool
deriving Repr, DecidableEq

/-- Embeds `g_poll_context_add_fd` of the unnamed gmain-poll revision:
under the lock, insert the record via the tail scan, bump the record
count and set `poll_changed`; after unlocking, call
`g_main_context_wakeup` and return TRUE.
Result: (new state, return value, action trace). -/
def g_poll_context_add_fd (b : GPollLoopBackend) (fd : Int) (events : Nat)
    (priority : Int) : GPollLoopBackend × Bool × List PollerOp :=
  ({ poll_records :=
        g_poll_records_insert b.poll_records
          { fd := fd, priority := priority, events := events },
     n_poll_records := b.n_poll_records + 1,
     poll_changed := true },
   true, [.lock, .unlock, .wakeup])

/-- Embeds `g_poll_context_modify_fd` of the unnamed gmain-poll revision:
under the lock, update the first matching record in place and set
`poll_changed`; after unlocking, call `g_main_context_wakeup` and return
TRUE. -/
def g_poll_context_modify_fd (b : GPollLoopBackend) (fd : Int)
    (events : Nat) (priority : Int) :
    GPollLoopBackend × Bool × List PollerOp :=
  ({ b with
      poll_records :=
        g_baseline_poller_modify_fd b.poll_records fd events priority,
      poll_changed := true },
   true, [.lock, .unlock, .wakeup])

/-- Embeds `g_poll_context_remove_fd` of the unnamed gmain-poll revision:
under the lock, unlink the first matching record (decrementing the count
only when one was found) and set `poll_changed`; after unlocking, call
`g_main_context_wakeup` and return TRUE. -/
def g_poll_context_remove_fd (b : GPollLoopBackend) (fd : Int) :
    GPollLoopBackend × Bool × List PollerOp :=
  let r := g_baseline_poller_remove_fd b.poll_records fd
  ({ poll_records := r.1,
     n_poll_records :=
       if r.2 then b.n_poll_records - 1 else b.n_poll_records,
     poll_changed := true },
   true, [.lock, .unlock, .wakeup])

structure GBaselinePollerData where
  poll_records : List GPollRec
  n_poll_records : Nat
deriving Repr, DecidableEq

/-- Embeds `g_baseline_poller_add_fd` of gmain-poll.c at the state level:
the record is inserted and the count bumped, but the function body holds
no mutex operation and no scheduler wake call, so the action trace of a
call is empty. -/
def g_baseline_poller_add_fd (b : GBaselinePollerData) (fd : Int)
    (events : Nat) (priority : Int) :
    GBaselinePollerData × List PollerOp :=
  ({ poll_records :=
        g_poll_records_insert b.poll_records
          { fd := fd, priority := priority, events := events },
     n_poll_records := b.n_poll_records + 1 },
   [])

/-- Claim C8 counterexample: `g_baseline_poller_add_fd` (gmain-poll.c),
one of the claim's cited portable-backend registration entry points,
mutates the fd set without ever signalling the scheduler's wake
primitive: the trace of a concrete call contains no wakeup action. -/
theorem g_baseline_poller_add_fd_no_wakeup :
    PollerOp.wakeup ∉
      (g_baseline_poller_add_fd
        { poll_records := [], n_poll_records := 0 } 5 1 0).2 := by
  decide

/-- Claim C8 as amended: in the GPollLoopBackend revision (the unnamed
gmain-poll source) every add_fd/modify_fd/remove_fd mutates the fd set,
marks `poll_changed` and signals the scheduler's wake primitive as its
final action after releasing the lock; the GBaselinePollerData revision
(gmain-poll.c) performs the same mutation but issues no wake itself. -/
theorem g_poll_context_registration_wakes :
    (∀ (b : GPollLoopBackend) (fd : Int) (events : Nat) (priority : Int),
        g_poll_context_add_fd b fd events priority
          = ({ poll_records :=
                  g_poll_records_insert b.poll_records
                    { fd := fd, priority := priority, events := events },
               n_poll_records := b.n_poll_records + 1,
               poll_changed := true },
             true, [.lock, .unlock, .wakeup]) ∧
        (g_poll_context_add_fd b fd events priority).2.2.getLast?
          = some .wakeup) ∧
    (∀ (b : GPollLoopBackend) (fd : Int) (events : Nat) (priority : Int),
        g_poll_context_modify_fd b fd events priority
          = ({ b with
                poll_records :=
                  g_baseline_poller_modify_fd b.poll_records fd events
                    priority,
                poll_changed := true },
             true, [.lock, .unlock, .wakeup]) ∧
        (g_poll_context_modify_fd b fd events priority).2.2.getLast?
          = some .wakeup) ∧
    (∀ (b : GPollLoopBackend) (fd : Int),
        (g_poll_context_remove_fd b fd).1.poll_records
          = (g_baseline_poller_remove_fd b.poll_records fd).1 ∧
        (g_poll_context_remove_fd b fd).1.poll_changed = true ∧
        (g_poll_context_remove_fd b fd).2.2.getLast? = some .wakeup) ∧
    (∀ (b : GBaselinePollerData) (fd : Int) (events : Nat)
        (priority : Int),
        (g_baseline_poller_add_fd b fd events priority).2 = []) := by
  refine ⟨?_, ?_, ?_, ?_⟩
  · intro b fd events priority
    exact ⟨rfl, rfl⟩
  · intro b fd events priority
    exact ⟨rfl, rfl⟩
  · intro b fd
    exact ⟨rfl, rfl, rfl⟩
  · intro b fd events priority
    rfl

/-! ### add_poll/remove_poll delegation and the default context
(the unnamed gevent revision) -/

/-- World state for context identity: contexts are numbered in order of
construction; `default_event_context` mirrors the static pointer, `none`
until the one-time initialisation has run. -/
structure EventCtxWorld where
  next_ctx : Nat
  default_event_context : Option Nat
deriving Repr, DecidableEq

/-- Allocation effect of `g_event_context_new` at the identity level: a
fresh context distinct from all previously constructed ones. -/
def g_event_context_construct (w : EventCtxWorld) : Nat × EventCtxWorld :=
  (w.next_ctx, { w with next_ctx := w.next_ctx + 1 })

/-- Embeds `g_event_context_default`: the first call (nothing stored yet)
runs the `g_once_init_enter`/`g_once_init_leave` block, constructing the
default context and storing it in the static variable; every later call
returns the stored context and changes nothing. -/
def g_event_context_default (w : EventCtxWorld) : Nat × EventCtxWorld :=
  match w.default_event_context with
  | some c => (c, w)
  | none =>
      let r := g_event_context_construct w
      (r.1, { r.2 with default_event_context := some r.1 })

/-- Observable actions of `_g_event_context_add_poll` /
`_g_event_context_remove_poll`: the handle mutex operations and the
vtable delegation. -/
inductive CtxOp where
  | lock (ctx : Nat)
  | vtable_add_poll (ctx : Nat) (fd : Int)
  | vtable_remove_poll (ctx : Nat) (fd : Int)
  | unlock (ctx : Nat)
deriving Repr, DecidableEq

/-- Embeds `_g_event_context_add_poll` of the unnamed gevent revision:
a NULL context handle is replaced by `g_event_context_default ()`; the
call then locks the handle's mutex, delegates to `funcs->add_poll`, and
unlocks. -/
def _g_event_context_add_poll (w : EventCtxWorld) (context : Option Nat)
    (fd : Int) : EventCtxWorld × List CtxOp :=
  let r := match context with
    | some c => (c, w)
    | none => g_event_context_default w
  (r.2, [.lock r.1, .vtable_add_poll r.1 fd, .unlock r.1])

/-- Embeds `_g_event_context_remove_poll` of the unnamed gevent revision:
same shape as add_poll with `funcs->remove_poll` as the delegate. -/
def _g_event_context_remove_poll (w : EventCtxWorld) (context : Option Nat)
    (fd : Int) : EventCtxWorld × List CtxOp :=
  let r := match context with
    | some c => (c, w)
    | none => g_event_context_default w
  (r.2, [.lock r.1, .vtable_remove_poll r.1 fd, .unlock r.1])

/-- Claim C9: with a non-null handle, add_poll/remove_poll run
lock–delegate–unlock on that handle and leave the world unchanged; with
a null handle, the process-wide default context is substituted — already
initialised, it is reused as is with nothing reconstructed; not yet
initialised, it is constructed, stored, and any subsequent default lookup
returns that same context without constructing again. -/
theorem _g_event_context_poll_delegation :
    (∀ (w : EventCtxWorld) (c : Nat) (fd : Int),
        _g_event_context_add_poll w (some c) fd
          = (w, [.lock c, .vtable_add_poll c fd, .unlock c]) ∧
        _g_event_context_remove_poll w (some c) fd
          = (w, [.lock c, .vtable_remove_poll c fd, .unlock c])) ∧
    (∀ (w : EventCtxWorld) (d : Nat) (fd : Int),
        w.default_event_context = some d →
        _g_event_context_add_poll w none fd
          = (w, [.lock d, .vtable_add_poll d fd, .unlock d]) ∧
        _g_event_context_remove_poll w none fd
          = (w, [.lock d, .vtable_remove_poll d fd, .unlock d])) ∧
    (∀ (w : EventCtxWorld) (fd : Int),
        w.default_event_context = none →
        (g_event_context_default w).2.default_event_context
          = some (g_event_context_default w).1 ∧
        g_event_context_default (g_event_context_default w).2
          = ((g_event_context_default w).1,
             (g_event_context_default w).2) ∧
        _g_event_context_add_poll w none fd
          = ((g_event_context_default w).2,
             [.lock (g_event_context_default w).1,
              .vtable_add_poll (g_event_context_default w).1 fd,
              .unlock (g_event_context_default w).1])) := by
  refine ⟨?_, ?_, ?_⟩
  · intro w c fd
    exact ⟨rfl, rfl⟩
  · intro w d fd h
    constructor
    · rw [_g_event_context_add_poll, g_event_context_default.eq_def, h]
    · rw [_g_event_context_remove_poll, g_event_context_default.eq_def, h]
  · intro w fd h
    rw [g_event_context_default.eq_def, h]
    refine ⟨rfl, ?_, ?_⟩
    · rw [g_event_context_default.eq_def]
    · rw [_g_event_context_add_poll, g_event_context_default.eq_def, h]

/-- Witness for C9: on a world with no default yet, a null-handle
add_poll constructs context 0, stores it as the default, and runs
lock–delegate–unlock on it; the next default lookup reuses it. -/
theorem _g_event_context_poll_delegation_witness :
    _g_event_context_add_poll { next_ctx := 0, default_event_context := none }
        none 4
      = ({ next_ctx := 1, default_event_context := some 0 },
         [.lock 0, .vtable_add_poll 0 4, .unlock 0]) ∧
    g_event_context_default
        { next_ctx := 1, default_event_context := some 0 }
      = (0, { next_ctx := 1, default_event_context := some 0 }) ∧
    _g_event_context_remove_poll
        { next_ctx := 1, default_event_context := some 0 } (some 0) 4
      = ({ next_ctx := 1, default_event_context := some 0 },
         [.lock 0, .vtable_remove_poll 0 4, .unlock 0]) := by
  refine ⟨?_, ?_, ?_⟩
  · have h := (_g_event_context_poll_delegation.2.2
      { next_ctx := 0, default_event_context := none } 4 rfl).2.2
    rw [h]
    rfl
  · rfl
  · exact (_g_event_context_poll_delegation.1
      { next_ctx := 1, default_event_context := some 0 } 0 4).2

/-- Claim C1: a context created by `g_event_context_new` or
`g_event_context_new_custom` starts with refcount 1; on a live context
`ref` increments and `unref` decrements the count; after N refs followed
by N+1 unrefs in total the finalize hook has run exactly once, it never
runs before the last unref, and it runs exactly at the transition of the
refcount to zero. -/
theorem g_event_context_refcount_law :
    g_event_context_new.ref_count = 1 ∧
    g_event_context_new_custom.ref_count = 1 ∧
    (∀ c : GEventContext, c.ref_count > 0 →
        (g_event_context_ref c).ref_count = c.ref_count + 1 ∧
        (g_event_context_unref c).ref_count = c.ref_count - 1) ∧
    (∀ n : Nat,
        (∀ k, k ≤ n →
          ((g_event_context_unref)^[k]
              ((g_event_context_ref)^[n] g_event_context_new)).finalized = 0) ∧
        ((g_event_context_unref)^[n] ((g_event_context_ref)^[n]
            g_event_context_new)).ref_count = 1 ∧
        ((g_event_context_unref)^[n + 1] ((g_event_context_ref)^[n]
            g_event_context_new)).finalized = 1 ∧
        ((g_event_context_unref)^[n + 1] ((g_event_context_ref)^[n]
            g_event_context_new)).ref_count = 0) := by
  refine ⟨rfl, rfl, ?_, ?_⟩
  · intro c hc
    constructor
    · simp [g_event_context_ref, hc]
    · simp only [g_event_context_unref]
      rw [if_pos hc]
      by_cases h0 : c.ref_count - 1 = 0
      · rw [if_pos h0]; simp [h0]
      · rw [if_neg h0]
  · intro n
    have hlast :
        (g_event_context_unref)^[n + 1]
            ((g_event_context_ref)^[n] g_event_context_new)
          = { ref_count := 0, finalized := 1 } := by
      rw [Function.iterate_succ_apply']
      rw [show (g_event_context_new) = g_event_context_new_custom from rfl]
      rw [unref_iterate n n le_rfl]
      simp [g_event_context_unref]
    refine ⟨?_, ?_, ?_, ?_⟩
    · intro k hk
      rw [show (g_event_context_new) = g_event_context_new_custom from rfl]
      rw [unref_iterate n k hk]
    · rw [show (g_event_context_new) = g_event_context_new_custom from rfl]
      rw [unref_iterate n n le_rfl]
      simp
    · rw [hlast]
    · rw [hlast]

/-- Witness for C1: the refcount law applied at a live context with
refcount 2 and at N = 2 refs followed by 3 unrefs. -/
theorem g_event_context_refcount_law_witness :
    (g_event_context_ref
        { ref_count := 2, finalized := 0 }).ref_count = 3 ∧
    ((g_event_context_unref)^[2] ((g_event_context_ref)^[2]
        g_event_context_new)).finalized = 0 ∧
    ((g_event_context_unref)^[3] ((g_event_context_ref)^[2]
        g_event_context_new)).finalized = 1 := by
  refine ⟨?_, ?_, ?_⟩
  · have h := (g_event_context_refcount_law.2.2.1
      { ref_count := 2, finalized := 0 } (by decide)).1
    rw [h]; rfl
  · exact (g_event_context_refcount_law.2.2.2 2).1 2 le_rfl
  · exact (g_event_context_refcount_law.2.2.2 2).2.2.1

end Glib
